import Mathlib

/-!
Verification of the medical-scanner data pipeline.

This file gives a shallow embedding, in Lean 4, of the data-reconciliation
core of the repository (the five Python modules under src/lib/localdata) and
proves or refutes the frozen specification claims about it.

Conventions of the embedding:
* Python dictionaries with string keys and string values (the upstream rows
  and the extracted facility records) are modelled as association lists
  `List (String × String)`; `dict.get(k, "")` (and the truthiness test
  `if d.get(k):`, since `None` and `""` are both falsy) is `pyGet`.
* Python string comparison (`<=` on strings, used for the lexicographic date
  window test) is modelled by `pyLe`, code-point-wise lexicographic
  comparison, exactly Python's semantics.
* Python's ordered `dict` used for deduplication is modelled as an
  association list where assigning to an existing key updates in place
  (keeping its position) and assigning a fresh key appends.
* `while True:` pagination loops that the source bounds with an explicit
  page cap are embedded as well-founded recursion on the remaining pages;
  loops the source does not bound are embedded with an explicit fuel
  parameter, `none` meaning "no termination condition fired within `fuel`
  iterations".
* JSON values (for the response-envelope normalizer) are the inductive
  `JValue`; Python's `in` on a dict is key membership, on a list it is
  element membership, as in CPython.
-/

set_option maxRecDepth 100000

/-- A parsed upstream row or an extracted facility record: a Python dict
from string field names to string values, as an association list. -/
abbrev RawRecord : Type := List (String × String)

/-- Python `d.get(k, "")` on a string-valued dict (also models `d.get(k)`
wherever the caller only tests truthiness, since `None` and `""` are both
falsy). -/
def pyGet (r : RawRecord) (k : String) : String :=
  match List.find? (fun p => p.1 == k) r with
  | some p => p.2
  | none => ""

/-- Code-point-wise lexicographic `<=` on character lists: the comparison
CPython performs for `s1 <= s2` on strings. -/
def pyLeChars : List Char → List Char → Bool
  | [], _ => true
  | _ :: _, [] => false
  | a :: as, b :: bs =>
    if a < b then true
    else if b < a then false
    else pyLeChars as bs

/-- Python string comparison `s <= t`. -/
def pyLe (s t : String) : Bool :=
  pyLeChars s.data t.data

/-- Python `s.replace(c, "")`: remove every occurrence of the character. -/
def removeChar (c : Char) (s : String) : String :=
  String.mk (s.data.filter (fun a => a ≠ c))

/-- Python substring test `needle in hay` on character lists. -/
def charsContain : List Char → List Char → Bool
  | _, [] => true
  | [], _ :: _ => false
  | a :: as, needle =>
    if needle.isPrefixOf (a :: as) then true else charsContain as needle

/-- Python substring membership `needle in hay` for strings. -/
def pyInStr (needle hay : String) : Bool :=
  charsContain hay.data needle.data

/-- A character of Python's default `str.strip` whitespace set. -/
def isPySpace (c : Char) : Bool :=
  c = ' ' ∨ c = '\t' ∨ c = '\n' ∨ c = '\r' ∨ c = '\x0b' ∨ c = '\x0c'

/-- Python `s.strip()`: remove leading and trailing whitespace. -/
def pyStrip (s : String) : String :=
  String.mk (((s.data.dropWhile isPySpace).reverse.dropWhile isPySpace).reverse)

/-- Key list of a Python-dict model. -/
def dictKeys (d : List (String × RawRecord)) : List String :=
  d.map (fun p => p.1)

/-- Python `k in d` for the dict model. -/
def dictHasKey (d : List (String × RawRecord)) (k : String) : Bool :=
  d.any (fun p => p.1 == k)

/-- Python `d[k] = v` on an ordered dict: an existing key is updated in
place (keeping its position), a fresh key is appended at the end. -/
def pyDictSet (d : List (String × RawRecord)) (k : String) (v : RawRecord) :
    List (String × RawRecord) :=
  if dictHasKey d k then
    d.map (fun p => if p.1 == k then (k, v) else p)
  else
    d ++ [(k, v)]

/-- Python `d.get(k)` on the dict model (`none` when the key is absent). -/
def dictFind (d : List (String × RawRecord)) (k : String) : Option RawRecord :=
  match List.find? (fun p => p.1 == k) d with
  | some p => some p.2
  | none => none

/-- The loop `for x in l: k = keyFn(x); if k: d[k] = x` — the first,
overwriting, half of the daily collector's two-stream merge. -/
def dictUpdateLoop (keyFn : RawRecord → String) (d : List (String × RawRecord)) :
    List RawRecord → List (String × RawRecord)
  | [] => d
  | x :: xs =>
    let k := keyFn x
    dictUpdateLoop keyFn (if k ≠ "" then pyDictSet d k x else d) xs

/-- The loop `for x in l: k = keyFn(x); if k and k not in d: d[k] = x` —
the insert-if-absent half of the merges and the single-list deduplicators. -/
def dictInsertNewLoop (keyFn : RawRecord → String) (d : List (String × RawRecord)) :
    List RawRecord → List (String × RawRecord)
  | [] => d
  | x :: xs =>
    let k := keyFn x
    dictInsertNewLoop keyFn (if k ≠ "" ∧ ¬ dictHasKey d k then pyDictSet d k x else d) xs

/-- The management-number business key of an extracted facility record
(`facility.get("관리번호")`). -/
def keyMgmt (f : RawRecord) : String :=
  pyGet f "관리번호"

/-- The management-number business key of a raw upstream row
(`item.get("mgtNo", "")`). -/
def keyMgtNo (r : RawRecord) : String :=
  pyGet r "mgtNo"

/-- First occurrences of the non-empty keys of `ks` that are not already in
`seen`, in input order: the order in which the Python ordered dict acquires
its keys.  With `seen = []` this is the order of first occurrence of each
non-empty business key across the input. -/
def firstOccurrenceKeys (seen : List String) : List String → List String
  | [] => []
  | k :: ks =>
    if k = "" ∨ seen.contains k then firstOccurrenceKeys seen ks
    else k :: firstOccurrenceKeys (seen ++ [k]) ks

/-- The last record of `l` whose business key (under `keyFn`) is `k`. -/
def lastWithKey (keyFn : RawRecord → String) (l : List RawRecord) (k : String) :
    Option RawRecord :=
  (l.filter (fun f => keyFn f == k)).getLast?

/-- The first record of `l` whose business key (under `keyFn`) is `k`. -/
def firstWithKey (keyFn : RawRecord → String) (l : List RawRecord) (k : String) :
    Option RawRecord :=
  (l.filter (fun f => keyFn f == k)).head?

namespace Daily

/-- The subject-keyword table `MEDICAL_SUBJECT_KEYWORDS` of
dailyMedicalDataCollector.py (lines 38-62), in dict insertion order. -/
def MEDICAL_SUBJECT_KEYWORDS : List (String × List String) :=
  [("내과", ["내과"]),
   ("소아청소년과", ["소아", "소아청소년", "소아과"]),
   ("정형외과", ["정형외과", "정형"]),
   ("피부과", ["피부과", "피부"]),
   ("이비인후과", ["이비인후과", "이비", "코", "귀"]),
   ("안과", ["안과", "눈"]),
   ("비뇨기과", ["비뇨기과", "비뇨"]),
   ("산부인과", ["산부인과", "산부", "여성의원", "여성"]),
   ("정신건강의학과", ["정신과", "정신건강", "정신"]),
   ("재활의학과", ["재활의학과", "재활"]),
   ("가정의학과", ["가정의학과", "가정"]),
   ("신경과", ["신경과"]),
   ("신경외과", ["신경외과"]),
   ("외과", ["외과"]),
   ("성형외과", ["성형외과", "성형"]),
   ("마취통증의학과", ["마취통증", "통증의학과", "통증", "페인"]),
   ("치과", ["치과"]),
   ("한의원", ["한의원", "한방", "한의과"])]

/-- The scan `for subject, keywords: for keyword: if keyword in name:
return subject` used for the `병원` branch of the daily classifier: the
first subject, in table order, one of whose keywords occurs in the name. -/
def first_matching_subject (name : String) :
    List (String × List String) → Option String
  | [] => none
  | (subject, keywords) :: rest =>
    if keywords.any (fun kw => pyInStr kw name) then some subject
    else first_matching_subject name rest

/-- `DailyMedicalDataCollector.extract_medical_subjects`
(dailyMedicalDataCollector.py lines 92-129).  In the general branch each
subject is collected at most once (table keys are distinct), so the
`found_subjects` accumulation is the in-order filter of the table. -/
def extract_medical_subjects (business_name business_type : String) : String :=
  if business_name = "" then ""
  else if business_type = "약국" then ""
  else if business_type = "병원" then
    match first_matching_subject business_name MEDICAL_SUBJECT_KEYWORDS with
    | some subject => subject
    | none => ""
  else
    let found_subjects :=
      (MEDICAL_SUBJECT_KEYWORDS.filter
        (fun p => p.2.any (fun kw => pyInStr kw business_name))).map (fun p => p.1)
    if found_subjects ≠ [] then String.intercalate ", " found_subjects
    else if business_type = "의원" ∧ pyInStr "의원" business_name then "일반의원"
    else ""

/-- `DailyMedicalDataCollector._extract_facility_info`
(dailyMedicalDataCollector.py lines 332-360): `None` when the business key
`mgtNo` or the permit date `apvPermYmd` is absent or empty, otherwise the
converted facility dict, in source field order. -/
def extract_facility_info (row : RawRecord) (facility_type : String) :
    Option RawRecord :=
  if pyGet row "mgtNo" = "" ∨ pyGet row "apvPermYmd" = "" then none
  else
    let business_name := pyGet row "bplcNm"
    some [("관리번호", pyGet row "mgtNo"),
          ("시설유형", facility_type),
          ("사업장명", business_name),
          ("업태구분", pyGet row "uptaeNm"),
          ("주소", pyGet row "rdnWhlAddr"),
          ("전화번호", pyGet row "siteTel"),
          ("개원일", pyGet row "apvPermYmd"),
          ("진료과목", extract_medical_subjects business_name facility_type),
          ("개방서비스명", pyGet row "opnSvcNm")]

/-- `DailyMedicalDataCollector._merge_and_deduplicate`
(dailyMedicalDataCollector.py lines 362-378): fill an ordered dict from the
first list (`all_facilities[mgt_no] = facility`, overwriting), then from the
second list only where the key is new, and return `list(d.values())`. -/
def merge_and_deduplicate (list1 list2 : List RawRecord) : List RawRecord :=
  (dictInsertNewLoop keyMgmt (dictUpdateLoop keyMgmt [] list1) list2).map
    (fun p => p.2)

/-- The date normalization inside
`DailyMedicalDataCollector._filter_by_target_dates` (lines 396-398):
`if "-" in open_date: open_date = open_date.replace("-", "")` — hyphens,
and only hyphens, are removed. -/
def normalize_date (open_date : String) : String :=
  if pyInStr "-" open_date then removeChar '-' open_date else open_date

/-- `DailyMedicalDataCollector._filter_by_target_dates`
(dailyMedicalDataCollector.py lines 380-408): skip records with a falsy
`개원일`, normalize, and keep those with
`start_str <= open_date <= end_str` (Python string comparison). -/
def filter_by_target_dates (start_str end_str : String)
    (facilities : List RawRecord) : List RawRecord :=
  facilities.filter (fun facility =>
    let open_date := pyGet facility "개원일"
    if open_date = "" then false
    else pyLe start_str (normalize_date open_date) &&
         pyLe (normalize_date open_date) end_str)

end Daily

/-- A parsed JSON value, as needed by the response-envelope normalizer:
strings, objects (ordered dicts), and arrays. -/
inductive JValue where
  | str : String → JValue
  | obj : List (String × JValue) → JValue
  | list : List JValue → JValue

/-- Python `k in v`: key membership on a dict, element membership on a
list, substring membership on a string — CPython's `in` semantics. -/
def jContains (v : JValue) (k : String) : Bool :=
  match v with
  | .obj kvs => kvs.any (fun p => p.1 == k)
  | .list xs => xs.any (fun x => match x with | .str t => t == k | _ => false)
  | .str s => pyInStr k s

/-- Dict indexing `v[k]` (the source only indexes after an `in` check on a
dict, so the lookup is modelled as an object lookup). -/
def jIndex (v : JValue) (k : String) : Option JValue :=
  match v with
  | .obj kvs =>
    match List.find? (fun p => p.1 == k) kvs with
    | some p => some p.2
    | none => none
  | _ => none

/-- `isinstance(v, dict)`. -/
def jIsObj (v : JValue) : Bool :=
  match v with
  | .obj _ => true
  | _ => false

/-- Python truthiness of a JSON value. -/
def jTruthy (v : JValue) : Bool :=
  match v with
  | .str s => s ≠ ""
  | .obj [] => false
  | .obj (_ :: _) => true
  | .list [] => false
  | .list (_ :: _) => true

namespace Daily

/-- `DailyMedicalDataCollector._extract_rows_from_response`
(dailyMedicalDataCollector.py lines 301-330).  `rows` starts as the empty
list and is reassigned by the first matching envelope shape; a final
`isinstance` check coerces a non-list into a singleton (or the empty list
when falsy). -/
def extract_rows_from_response (data : JValue) : List JValue :=
  let rows : JValue :=
    if jContains data "result" &&
        (match jIndex data "result" with
         | some res => jContains res "body"
         | none => false) then
      match (jIndex data "result").bind (fun res => jIndex res "body") with
      | some body =>
        if jIsObj body then
          if jContains body "rows" then
            match jIndex body "rows" with
            | some rowsData =>
              match rowsData with
              | .list (first :: rest) =>
                if jIsObj first ∧ jContains first "row" then
                  (jIndex first "row").getD (.list [])
                else .list (first :: rest)
              | _ => .list []
            | none => .list []
          else .list [body]
        else
          match body with
          | .list xs => .list xs
          | _ => .list []
      | none => .list []
    else if jContains data "body" then (jIndex data "body").getD (.list [])
    else if jContains data "row" then (jIndex data "row").getD (.list [])
    else .list []
  match rows with
  | .list xs => xs
  | v => if jTruthy v then [v] else []

/-- `DailyMedicalDataCollector._fetch_by_date_params`
(dailyMedicalDataCollector.py lines 171-299): one upstream request per
iteration (`server page_index` is the page's parsed row list, `none` when
the request or the parse raises and the `except` clause breaks).  The pair
returned is (converted records, number of requests made).  Terminates
because the source breaks as soon as `page_index` would exceed 10. -/
def fetch_by_date_params (server : Nat → Option (List RawRecord))
    (facility_type : String) (page_index : Nat) : List RawRecord × Nat :=
  match server page_index with
  | none => ([], 1)
  | some rows =>
    if rows.isEmpty then ([], 1)
    else
      let converted :=
        rows.filterMap (fun row => extract_facility_info row facility_type)
      if rows.length < 1000 then (converted, 1)
      else if h : page_index + 1 > 10 then (converted, 1)
      else
        let rest := fetch_by_date_params server facility_type (page_index + 1)
        (converted ++ rest.1, rest.2 + 1)
termination_by 11 - page_index
decreasing_by
  simp_wf
  omega

end Daily

/-- An XML row element: child tag names with their (optional) text, in
document order; `(tag, none)` models a child whose `.text` is `None`. -/
abbrev XRow : Type := List (String × Option String)

/-- `row.find(tag)`: the first child with the given tag; the outer `none`
means no such child, the inner `Option` is the element's `.text`. -/
def xmlFind (row : XRow) (tag : String) : Option (Option String) :=
  match List.find? (fun p => p.1 == tag) row with
  | some p => some p.2
  | none => none

namespace Integrated

/-- The override table `FIXED_MEDICAL_SUBJECTS` of integratedMedicalData.py
(lines 79-91), including the explicit empty subject for pharmacies. -/
def FIXED_MEDICAL_SUBJECTS : List (String × String) :=
  [("치과의원", "치과"),
   ("치과병원", "치과"),
   ("한의원", "한의학"),
   ("한방병원", "한의학"),
   ("요양병원(일반요양병원)", "재활의학과"),
   ("정신병원", "정신건강의학과"),
   ("보건소", "예방의학과"),
   ("보건지소", "가정의학과"),
   ("보건진료소", "가정의학과"),
   ("조산원", "산부인과"),
   ("약국", "")]

/-- Lookup in `FIXED_MEDICAL_SUBJECTS` (Python `business_type in FIXED` /
`FIXED[business_type]`). -/
def fixedSubject (business_type : String) : Option String :=
  match List.find? (fun p => p.1 == business_type) FIXED_MEDICAL_SUBJECTS with
  | some p => some p.2
  | none => none

/-- The priority-ordered keyword list `MEDICAL_SUBJECT_KEYWORDS` of
integratedMedicalData.py (lines 94-110). -/
def MEDICAL_SUBJECT_KEYWORDS : List String :=
  ["내분비내과", "소화기내과", "순환기내과", "호흡기내과", "신장내과", "혈액내과",
   "감염내과", "류마티스내과", "내과",
   "성형외과", "정형외과", "신경외과", "흉부외과", "심장외과", "간담췌외과",
   "대장항문외과", "유방외과", "외과",
   "산부인과", "소아청소년과", "소아과", "청소년과", "정신건강의학과", "정신과",
   "가정의학과", "응급의학과",
   "재활의학과", "영상의학과", "병리과", "진단검사의학과", "마취통증의학과",
   "예방의학과", "직업환경의학과",
   "안과", "이비인후과", "피부과", "비뇨의학과", "비뇨기과",
   "신경과", "결핵과", "핵의학과", "방사선종양학과"]

/-- `extract_medical_subjects` of integratedMedicalData.py (lines 301-319).
The arguments are `Option String` because the caller passes the result of
`get_text`, which can be `None`; `None` is falsy and is never in the fixed
table, exactly as in Python. -/
def extract_medical_subjects (business_name business_type : Option String) :
    String :=
  match business_type.bind fixedSubject with
  | some subject => subject
  | none =>
    match business_name with
    | some name =>
      if name ≠ "" then
        let found_subjects :=
          MEDICAL_SUBJECT_KEYWORDS.filter (fun kw => pyInStr kw name)
        if found_subjects ≠ [] then String.intercalate "," found_subjects
        else ""
      else ""
    | none => ""

/-- The local helper `get_text` of `extract_facility_info`
(integratedMedicalData.py lines 323-325): the stripped text when the
element exists and its text is truthy, otherwise `None`. -/
def get_text (row : XRow) (tag : String) : Option String :=
  match xmlFind row tag with
  | some (some t) => if t ≠ "" then some (pyStrip t) else none
  | _ => none

/-- `extract_facility_info` of integratedMedicalData.py (lines 321-342),
with values `Option String` (`None` for missing text), in source key
order. -/
def extract_facility_info (row : XRow) : List (String × Option String) :=
  let business_name := get_text row "bplcNm"
  let business_type := get_text row "uptaeNm"
  let medical_subjects := extract_medical_subjects business_name business_type
  [("사업장명", business_name),
   ("개원일", get_text row "apvPermYmd"),
   ("주소", get_text row "rdnWhlAddr"),
   ("업태구분", business_type),
   ("전화번호", get_text row "siteTel"),
   ("관리번호", get_text row "mgtNo"),
   ("진료과목", some medical_subjects)]

/-- The retention test of `filter_by_opening_date`: the `apvPermYmd` child
exists with truthy text and the stripped, hyphen-free date lies in the
inclusive window under Python string comparison. -/
def opening_date_in_window (row : XRow) (start_date end_date : String) : Bool :=
  match xmlFind row "apvPermYmd" with
  | some (some t) =>
    t ≠ "" &&
      (let normalized := removeChar '-' (pyStrip t)
       pyLe start_date normalized && pyLe normalized end_date)
  | _ => false

/-- `filter_by_opening_date` of integratedMedicalData.py (lines 281-299):
rows that pass the window test are extracted and tagged with the facility
type and an empty data-source marker, in input order. -/
def filter_by_opening_date (data : List XRow) (start_date end_date : String)
    (facility_type : String) : List (List (String × Option String)) :=
  match data with
  | [] => []
  | row :: rest =>
    let tail := filter_by_opening_date rest start_date end_date facility_type
    match xmlFind row "apvPermYmd" with
    | some (some t) =>
      if t ≠ "" then
        let opening_date := pyStrip t
        let normalized := removeChar '-' opening_date
        if pyLe start_date normalized && pyLe normalized end_date then
          (extract_facility_info row ++
            [("시설유형", some facility_type), ("데이터소스", some "")]) :: tail
        else tail
      else tail
    | _ => tail

/-- The `date_ranges` construction inside `fetch_medical_data_comprehensive`
(integratedMedicalData.py lines 163-188; identical in hospitalData.py lines
99-124) for the last-modified query mode.  The parsed `datetime` values are
represented by their day numbers, `timedelta(days=k)` by `± k`; the
`strptime`/`strftime` round-trips are bijections on valid dates and are
elided.  The windows, in order: the primary window, then
`(start - 7 days, start - 1 day)`, then `(start + 7 days, start + 14
days)`. -/
def last_mod_date_ranges (start_date end_date : Int) : List (Int × Int) :=
  [(start_date, end_date),
   (start_date - 7, start_date - 1),
   (start_date + 7, start_date + 14)]

end Integrated

namespace MedData

/-- The date cleanup inside `get_medical_data_by_approval_date`
(MedicalData.py lines 108-115): remove every hyphen, slash, and space,
strip surrounding whitespace, then keep the first 8 characters when at
least 8 remain. -/
def clean_apv_date (apv_date : String) : String :=
  let cleaned := pyStrip (removeChar ' ' (removeChar '/' (removeChar '-' apv_date)))
  if 8 ≤ cleaned.length then cleaned.take 8 else cleaned

/-- The filtering stage of `get_medical_data_by_approval_date`
(MedicalData.py lines 104-119): keep the items whose truthy `apvPermYmd`
cleans up to exactly the target date. -/
def filter_by_approval_date (target_date : String) (unique_data : List RawRecord) :
    List RawRecord :=
  unique_data.filter (fun item =>
    let apv_date := pyGet item "apvPermYmd"
    if apv_date = "" then false
    else clean_apv_date apv_date == target_date)

/-- `MedicalDataAPI._deduplicate_by_mgtno` (MedicalData.py lines 193-208):
insert each item under its truthy `mgtNo` only when the key is new, and
return `list(d.values())`. -/
def deduplicate_by_mgtno (data_list : List RawRecord) : List RawRecord :=
  (dictInsertNewLoop keyMgtNo [] data_list).map (fun p => p.2)

/-- `MedicalDataAPI._fetch_data` (MedicalData.py lines 311-373), fuel
indexed: the `while True:` loop has no page cap, so the embedding returns
`none` when no termination condition (empty page, short page, raised
exception) fires within `fuel` iterations.  One upstream request per
iteration; `server page_index = none` models a raised exception, which
breaks with the rows collected so far. -/
def fetch_data_fuel (server : Nat → Option (List RawRecord)) (page_size : Nat) :
    Nat → Nat → Option (List RawRecord)
  | 0, _ => none
  | fuel + 1, page_index =>
    match server page_index with
    | none => some []
    | some parsed_data =>
      if parsed_data.isEmpty then some []
      else if parsed_data.length < page_size then some parsed_data
      else
        (fetch_data_fuel server page_size fuel (page_index + 1)).map
          (fun rest => parsed_data ++ rest)

end MedData

namespace SimpleFetch

/-- `fetch_data_bgn_end` (simple_fetch.py lines 25-65), fuel indexed: the
`while True:` loop has no page cap, so the embedding returns `none` when no
termination condition (empty page, page shorter than `PAGE_SIZE = 500`,
raised exception) fires within `fuel` iterations. -/
def fetch_data_bgn_end_fuel (server : Nat → Option (List XRow)) :
    Nat → Nat → Option (List XRow)
  | 0, _ => none
  | fuel + 1, page =>
    match server page with
    | none => some []
    | some rows =>
      if rows.isEmpty then some []
      else if rows.length < 500 then some rows
      else
        (fetch_data_bgn_end_fuel server fuel (page + 1)).map
          (fun rest => rows ++ rest)

/-- Python `int(s)` on the digit strings handled by `fetch_data_last_mod`:
fold the decimal digits. -/
def py_int (s : String) : Int :=
  ((s.data.foldl (fun n c => n * 10 + (c.toNat - 48)) 0 : Nat) : Int)

/-- The decimal digit character for `n < 10`. -/
def digitChar (n : Nat) : Char :=
  if n = 0 then '0' else if n = 1 then '1' else if n = 2 then '2'
  else if n = 3 then '3' else if n = 4 then '4' else if n = 5 then '5'
  else if n = 6 then '6' else if n = 7 then '7' else if n = 8 then '8' else '9'

/-- Decimal digits of `n`, least significant first (`fuel` bounds the
digit count; 30 digits suffice for every value arising here). -/
def natDigitsRev : Nat → Nat → List Char
  | 0, _ => []
  | fuel + 1, n =>
    if n = 0 then []
    else digitChar (n % 10) :: natDigitsRev fuel (n / 10)

/-- Python `str(i)` for an integer. -/
def pyStrOfInt (i : Int) : String :=
  match i with
  | .ofNat n => if n = 0 then "0" else String.mk (natDigitsRev 30 n).reverse
  | .negSucc m => "-" ++ String.mk (natDigitsRev 30 (m + 1)).reverse

/-- Whether the first character of `s` is `c`. -/
def headIs (s : String) (c : Char) : Bool :=
  match s.data with
  | [] => false
  | a :: _ => a == c

/-- Python `s.zfill(width)`: left-pad with zeros after an optional sign. -/
def zfill (s : String) (width : Nat) : String :=
  if width ≤ s.length then s
  else
    let pad := List.replicate (width - s.length) '0'
    if headIs s '-' ∨ headIs s '+' then
      String.mk (s.data.take 1 ++ pad ++ s.data.drop 1)
    else String.mk (pad ++ s.data)

/-- The ordered sequence of `(lastModTsBgn, lastModTsEnd)` windows queried
by `fetch_data_last_mod` (simple_fetch.py lines 67-92): the primary window,
then `str(int(start) - 7).zfill(8)` to `str(int(start) - 1).zfill(8)`, then
`str(int(end) + 1).zfill(8)` to `str(int(end) + 7).zfill(8)` — numeric
arithmetic on the date strings, not calendar arithmetic. -/
def fetch_data_last_mod_windows (start_date end_date : String) :
    List (String × String) :=
  [(start_date, end_date),
   (zfill (pyStrOfInt (py_int start_date - 7)) 8,
    zfill (pyStrOfInt (py_int start_date - 1)) 8),
   (zfill (pyStrOfInt (py_int end_date + 1)) 8,
    zfill (pyStrOfInt (py_int end_date + 7)) 8)]

end SimpleFetch

namespace ApiData

/-- The loop body of `MedicalDataAPI._remove_duplicates` (apiData.py lines
321-332), with the `seen` set threaded: an item is appended exactly when
its `mgtNo` is truthy and not yet seen. -/
def remove_duplicates_go (seen : List String) : List RawRecord → List RawRecord
  | [] => []
  | item :: rest =>
    let mgt_no := pyGet item "mgtNo"
    if mgt_no ≠ "" ∧ ¬ seen.contains mgt_no then
      item :: remove_duplicates_go (mgt_no :: seen) rest
    else remove_duplicates_go seen rest

/-- `MedicalDataAPI._remove_duplicates` (apiData.py lines 321-332):
first-writer-wins deduplication of a single concatenated stream by
`mgtNo`. -/
def remove_duplicates (data_list : List RawRecord) : List RawRecord :=
  remove_duplicates_go [] data_list

end ApiData

/-- An upstream that forever returns full pages of `n` rows (dict rows). -/
def alwaysFullServer (n : Nat) : Nat → Option (List RawRecord) :=
  fun _ => some (List.replicate n [("mgtNo", "1"), ("apvPermYmd", "20250617")])

/-- An upstream that forever returns full pages of `n` XML rows. -/
def alwaysFullXmlServer (n : Nat) : Nat → Option (List XRow) :=
  fun _ => some (List.replicate n [("mgtNo", some "1")])

/-- Strict-or on options, used to state the merge characterizations. -/
def optOr {α : Type} : Option α → Option α → Option α
  | some x, _ => some x
  | none, b => b

theorem optOr_none_left {α : Type} (b : Option α) : optOr none b = b := rfl

theorem optOr_some_left {α : Type} (x : α) (b : Option α) :
    optOr (some x) b = some x := rfl

theorem optOr_none_right {α : Type} (a : Option α) : optOr a none = a := by
  cases a <;> rfl

theorem optOr_assoc {α : Type} (a b c : Option α) :
    optOr (optOr a b) c = optOr a (optOr b c) := by
  cases a <;> cases b <;> rfl

theorem pyLe_of_length_ne_nil (s : String) (h : s.length = 8) :
    pyLe s "" = false := by
  have hd : s.data ≠ [] := by
    intro h0
    have : s.length = 0 := by
      show s.data.length = 0
      rw [h0]
      rfl
    omega
  obtain ⟨a, as, ha⟩ := List.exists_cons_of_ne_nil hd
  show pyLeChars s.data "".data = false
  rw [ha]
  rfl

theorem normalize_date_empty : Daily.normalize_date "" = "" := rfl

theorem daily_filter_mem_iff (start_str end_str : String)
    (facilities : List RawRecord) (f : RawRecord)
    (hs : start_str.length = 8) :
    f ∈ Daily.filter_by_target_dates start_str end_str facilities ↔
      f ∈ facilities ∧
        pyLe start_str (Daily.normalize_date (pyGet f "개원일")) = true ∧
        pyLe (Daily.normalize_date (pyGet f "개원일")) end_str = true := by
  unfold Daily.filter_by_target_dates
  rw [List.mem_filter]
  constructor
  · rintro ⟨hmem, hpred⟩
    refine ⟨hmem, ?_⟩
    by_cases h0 : pyGet f "개원일" = ""
    · simp only [h0, if_pos rfl] at hpred
      exact absurd hpred (by simp)
    · simp only [if_neg h0, Bool.and_eq_true] at hpred
      exact hpred
  · rintro ⟨hmem, h1, h2⟩
    refine ⟨hmem, ?_⟩
    by_cases h0 : pyGet f "개원일" = ""
    · rw [h0, normalize_date_empty] at h1
      rw [pyLe_of_length_ne_nil start_str hs] at h1
      exact absurd h1 (by simp)
    · simp only [if_neg h0, Bool.and_eq_true]
      exact ⟨h1, h2⟩

theorem integrated_filter_eq (data : List XRow) (start_date end_date : String)
    (facility_type : String) :
    Integrated.filter_by_opening_date data start_date end_date facility_type =
      (data.filter
        (fun row => Integrated.opening_date_in_window row start_date end_date)).map
        (fun row => Integrated.extract_facility_info row ++
          [("시설유형", some facility_type), ("데이터소스", some "")]) := by
  induction data with
  | nil => rfl
  | cons row rest ih =>
    rw [Integrated.filter_by_opening_date]
    rw [List.filter_cons]
    cases hfind : xmlFind row "apvPermYmd" with
    | none =>
      have hw : Integrated.opening_date_in_window row start_date end_date = false := by
        unfold Integrated.opening_date_in_window
        rw [hfind]
      rw [hw]
      simpa using ih
    | some t? =>
      cases t? with
      | none =>
        have hw : Integrated.opening_date_in_window row start_date end_date = false := by
          unfold Integrated.opening_date_in_window
          rw [hfind]
        rw [hw]
        simpa using ih
      | some t =>
        have hw : Integrated.opening_date_in_window row start_date end_date =
            (t ≠ "" && (pyLe start_date (removeChar '-' (pyStrip t)) &&
              pyLe (removeChar '-' (pyStrip t)) end_date)) := by
          unfold Integrated.opening_date_in_window
          rw [hfind]
        rw [hw]
        by_cases ht : t = ""
        · subst ht
          simp [ih]
        · by_cases hcmp : (pyLe start_date (removeChar '-' (pyStrip t)) &&
              pyLe (removeChar '-' (pyStrip t)) end_date) = true
          · simp [ht, hcmp, ih]
          · simp [ht, hcmp, ih]

/-- C1: the date-window filter retains a record exactly when its normalized
permit date lies in the inclusive window `[start, end]` under lexicographic
(code-point) string comparison — records at the window boundaries included,
records outside (in particular one day outside) excluded, for 8-digit
zero-padded bounds.  First conjunct: membership characterization of the
daily collector's `_filter_by_target_dates`; second conjunct: the
integrated extractor's `filter_by_opening_date` is exactly the in-window
filter followed by record extraction. -/
theorem date_window_filter_retains_iff :
    (∀ (start_str end_str : String) (facilities : List RawRecord) (f : RawRecord),
      start_str.length = 8 → end_str.length = 8 →
      (f ∈ Daily.filter_by_target_dates start_str end_str facilities ↔
        f ∈ facilities ∧
          pyLe start_str (Daily.normalize_date (pyGet f "개원일")) = true ∧
          pyLe (Daily.normalize_date (pyGet f "개원일")) end_str = true)) ∧
    (∀ (data : List XRow) (start_date end_date facility_type : String),
      Integrated.filter_by_opening_date data start_date end_date facility_type =
        (data.filter
          (fun row => Integrated.opening_date_in_window row start_date end_date)).map
          (fun row => Integrated.extract_facility_info row ++
            [("시설유형", some facility_type), ("데이터소스", some "")])) :=
  ⟨fun s e fac f hs _ => daily_filter_mem_iff s e fac f hs,
   fun data s e ft => integrated_filter_eq data s e ft⟩

/-- Witness for C1 at the window `["20250608", "20250615"]`: the records
dated exactly `start` and exactly `end` are retained, the records dated one
day before `start` and one day after `end` are excluded. -/
theorem date_window_filter_retains_iff_witness :
    ("20250608" : String).length = 8 ∧ ("20250615" : String).length = 8 ∧
    [("개원일", "20250608")] ∈ Daily.filter_by_target_dates "20250608" "20250615"
      [[("개원일", "20250608")], [("개원일", "20250615")],
       [("개원일", "20250607")], [("개원일", "20250616")]] ∧
    [("개원일", "20250615")] ∈ Daily.filter_by_target_dates "20250608" "20250615"
      [[("개원일", "20250608")], [("개원일", "20250615")],
       [("개원일", "20250607")], [("개원일", "20250616")]] ∧
    [("개원일", "20250607")] ∉ Daily.filter_by_target_dates "20250608" "20250615"
      [[("개원일", "20250608")], [("개원일", "20250615")],
       [("개원일", "20250607")], [("개원일", "20250616")]] ∧
    [("개원일", "20250616")] ∉ Daily.filter_by_target_dates "20250608" "20250615"
      [[("개원일", "20250608")], [("개원일", "20250615")],
       [("개원일", "20250607")], [("개원일", "20250616")]] := by
  have key := date_window_filter_retains_iff.1 "20250608" "20250615"
    [[("개원일", "20250608")], [("개원일", "20250615")],
     [("개원일", "20250607")], [("개원일", "20250616")]]
  refine ⟨by decide, by decide, ?_, ?_, ?_, ?_⟩
  · exact (key _ (by decide) (by decide)).mpr (by refine ⟨by decide, by decide, by decide⟩)
  · exact (key _ (by decide) (by decide)).mpr (by refine ⟨by decide, by decide, by decide⟩)
  · intro hmem
    have h := (key _ (by decide) (by decide)).mp hmem
    revert h
    decide
  · intro hmem
    have h := (key _ (by decide) (by decide)).mp hmem
    revert h
    decide

/-- Refutes C4 as stated: the date-window filter
(`_filter_by_target_dates`) does not strip slashes or whitespace, so the
raw dates `"20250617"` and `"2025/06/17 "` are not treated identically —
with window `["20250601", "20250630"]` the first is retained and the
second is excluded. -/
theorem date_normalization_window_filter_counterexample :
    Daily.filter_by_target_dates "20250601" "20250630"
        [[("개원일", "20250617")], [("개원일", "2025/06/17 ")]] =
      [[("개원일", "20250617")]] := by
  decide

/-- C4 amended: the strip-hyphens-slashes-whitespace-then-take-8
normalization appears in `get_medical_data_by_approval_date`
(MedicalData.py), whose filter retains an item exactly when its truthy raw
date cleans to the target — there `"2025-06-17"`, `"20250617"` and
`"2025/06/17 "` are all normalized to `"20250617"` and treated
identically.  The window filter of the daily collector normalizes by
removing hyphens only: `"2025-06-17"` and `"20250617"` coincide there, but
`"2025/06/17 "` is left unchanged and is compared verbatim — so it can
differ from `"20250617"` in either direction: for the window
`["20250601", "20250630"]` the slash form is excluded while the plain
form is retained (the counterexample), and for `["20241228", "20250106"]`
the slash form is retained (since `'/' < '0'`) while the plain form is
excluded. -/
theorem date_normalization_amended :
    MedData.clean_apv_date "2025-06-17" = "20250617" ∧
    MedData.clean_apv_date "20250617" = "20250617" ∧
    MedData.clean_apv_date "2025/06/17 " = "20250617" ∧
    (∀ (target : String) (items : List RawRecord) (item : RawRecord),
      item ∈ MedData.filter_by_approval_date target items ↔
        item ∈ items ∧ pyGet item "apvPermYmd" ≠ "" ∧
          MedData.clean_apv_date (pyGet item "apvPermYmd") = target) ∧
    Daily.normalize_date "2025-06-17" = "20250617" ∧
    Daily.normalize_date "20250617" = "20250617" ∧
    Daily.normalize_date "2025/06/17 " = "2025/06/17 " ∧
    Daily.filter_by_target_dates "20241228" "20250106"
        [[("개원일", "2025/06/17 ")], [("개원일", "20250617")]] =
      [[("개원일", "2025/06/17 ")]] := by
  refine ⟨by decide, by decide, by decide, ?_, by decide, by decide, by decide,
    by decide⟩
  intro target items item
  unfold MedData.filter_by_approval_date
  rw [List.mem_filter]
  by_cases h0 : pyGet item "apvPermYmd" = ""
  · simp [h0]
  · simp [h0]

/-- Refutes C5 as stated: a record whose normalized date is shorter than 8
characters is not necessarily excluded — the 7-character date `"2025062"`
falls lexicographically inside the window `["20250601", "20250630"]` and
the record is retained. -/
theorem short_date_retained_counterexample :
    Daily.filter_by_target_dates "20250601" "20250630" [[("개원일", "2025062")]] =
      [[("개원일", "2025062")]] ∧
    (Daily.normalize_date "2025062").length = 7 := by
  exact ⟨by decide, by decide⟩

/-- C5 amended: a record with an absent (empty) raw permit date is always
excluded, and a record is excluded whenever its normalized date compares
outside the window; but no length check is applied, so a shorter-than-8
normalized date is excluded only when it falls lexicographically outside
the bounds. -/
theorem malformed_date_exclusion_amended :
    (∀ (start_str end_str : String) (facilities : List RawRecord) (f : RawRecord),
      pyGet f "개원일" = "" →
      f ∉ Daily.filter_by_target_dates start_str end_str facilities) ∧
    (∀ (start_str end_str : String) (facilities : List RawRecord) (f : RawRecord),
      (pyLe start_str (Daily.normalize_date (pyGet f "개원일")) &&
        pyLe (Daily.normalize_date (pyGet f "개원일")) end_str) = false →
      f ∉ Daily.filter_by_target_dates start_str end_str facilities) := by
  constructor
  · intro s e fac f h0 hmem
    unfold Daily.filter_by_target_dates at hmem
    rw [List.mem_filter] at hmem
    simp [h0] at hmem
  · intro s e fac f hfalse hmem
    unfold Daily.filter_by_target_dates at hmem
    rw [List.mem_filter] at hmem
    by_cases h0 : pyGet f "개원일" = ""
    · simp [h0] at hmem
    · simp only [if_neg h0] at hmem
      rw [hmem.2] at hfalse
      exact absurd hfalse (by simp)

/-- Witness for C5 (amended) at concrete inputs: the empty date is
excluded; the out-of-window date `"20250715"` is excluded. -/
theorem malformed_date_exclusion_amended_witness :
    pyGet [("개원일", "")] "개원일" = "" ∧
    [("개원일", "")] ∉
      Daily.filter_by_target_dates "20250601" "20250630" [[("개원일", "")]] ∧
    (pyLe "20250601" (Daily.normalize_date (pyGet [("개원일", "20250715")] "개원일")) &&
      pyLe (Daily.normalize_date (pyGet [("개원일", "20250715")] "개원일")) "20250630") = false ∧
    [("개원일", "20250715")] ∉
      Daily.filter_by_target_dates "20250601" "20250630" [[("개원일", "20250715")]] :=
  ⟨rfl,
   malformed_date_exclusion_amended.1 "20250601" "20250630" _ _ rfl,
   by decide,
   malformed_date_exclusion_amended.2 "20250601" "20250630" _ _ (by decide)⟩

theorem dictHasKey_iff_mem_keys (d : List (String × RawRecord)) (k : String) :
    dictHasKey d k = true ↔ k ∈ dictKeys d := by
  unfold dictHasKey dictKeys
  rw [List.any_eq_true]
  constructor
  · rintro ⟨p, hp, hbeq⟩
    exact List.mem_map.mpr ⟨p, hp, beq_iff_eq.mp hbeq⟩
  · intro hk
    obtain ⟨p, hp, hpk⟩ := List.mem_map.mp hk
    exact ⟨p, hp, beq_iff_eq.mpr hpk⟩

theorem dictHasKey_eq_contains (d : List (String × RawRecord)) (k : String) :
    dictHasKey d k = (dictKeys d).contains k := by
  rcases h : (dictKeys d).contains k with _ | _
  · rw [Bool.eq_false_iff]
    intro habs
    have hm := (dictHasKey_iff_mem_keys d k).mp habs
    rw [← List.elem_iff] at hm
    have hce : (dictKeys d).contains k = List.elem k (dictKeys d) := rfl
    rw [hce, hm] at h
    exact absurd h (by simp)
  · exact (dictHasKey_iff_mem_keys d k).mpr (List.elem_iff.mp h)

theorem dictKeys_pyDictSet (d : List (String × RawRecord)) (k : String)
    (v : RawRecord) :
    dictKeys (pyDictSet d k v) =
      if dictHasKey d k then dictKeys d else dictKeys d ++ [k] := by
  unfold pyDictSet
  by_cases h : dictHasKey d k
  · rw [if_pos h, if_pos h]
    unfold dictKeys
    rw [List.map_map]
    apply List.map_congr_left
    intro p _
    by_cases hp : p.1 == k
    · simp only [Function.comp_apply, if_pos hp]
      exact (beq_iff_eq.mp hp).symm
    · simp only [Function.comp_apply]
      rw [if_neg hp]
  · rw [if_neg h, if_neg h]
    unfold dictKeys
    rw [List.map_append]
    rfl

theorem dictKeys_updateLoop (keyFn : RawRecord → String) :
    ∀ (l : List RawRecord) (d : List (String × RawRecord)),
      dictKeys (dictUpdateLoop keyFn d l) =
        dictKeys d ++ firstOccurrenceKeys (dictKeys d) (l.map keyFn) := by
  intro l
  induction l with
  | nil => intro d; simp [dictUpdateLoop, firstOccurrenceKeys]
  | cons x xs ih =>
    intro d
    rw [dictUpdateLoop, List.map_cons, firstOccurrenceKeys]
    by_cases hk : keyFn x = ""
    · rw [if_neg (by simpa using hk), if_pos (Or.inl hk)]
      exact ih d
    · rw [if_pos (by simpa using hk)]
      by_cases hhas : dictHasKey d (keyFn x) = true
      · have hcont : (dictKeys d).contains (keyFn x) = true := by
          rw [← dictHasKey_eq_contains]; exact hhas
        rw [if_pos (Or.inr hcont), ih (pyDictSet d (keyFn x) x),
          dictKeys_pyDictSet, if_pos hhas]
      · have hcont : ¬ ((dictKeys d).contains (keyFn x) = true) := by
          rw [← dictHasKey_eq_contains]; simpa using hhas
        rw [if_neg (by
          rintro (h1 | h2)
          · exact hk h1
          · exact hcont h2)]
        rw [ih (pyDictSet d (keyFn x) x), dictKeys_pyDictSet,
          if_neg (by simpa using hhas)]
        rw [List.append_assoc]
        rfl

theorem dictKeys_insertNewLoop (keyFn : RawRecord → String) :
    ∀ (l : List RawRecord) (d : List (String × RawRecord)),
      dictKeys (dictInsertNewLoop keyFn d l) =
        dictKeys d ++ firstOccurrenceKeys (dictKeys d) (l.map keyFn) := by
  intro l
  induction l with
  | nil => intro d; simp [dictInsertNewLoop, firstOccurrenceKeys]
  | cons x xs ih =>
    intro d
    rw [dictInsertNewLoop, List.map_cons, firstOccurrenceKeys]
    by_cases hk : keyFn x = ""
    · rw [if_neg (by simp [hk]), if_pos (Or.inl hk)]
      exact ih d
    · by_cases hhas : dictHasKey d (keyFn x) = true
      · have hcont : (dictKeys d).contains (keyFn x) = true := by
          rw [← dictHasKey_eq_contains]; exact hhas
        rw [if_neg (by simp [hhas]), if_pos (Or.inr hcont)]
        exact ih d
      · have hcont : ¬ ((dictKeys d).contains (keyFn x) = true) := by
          rw [← dictHasKey_eq_contains]; simpa using hhas
        rw [if_pos ⟨hk, by simpa using hhas⟩]
        rw [if_neg (by
          rintro (h1 | h2)
          · exact hk h1
          · exact hcont h2)]
        rw [ih (pyDictSet d (keyFn x) x), dictKeys_pyDictSet,
          if_neg (by simpa using hhas)]
        rw [List.append_assoc]
        rfl

theorem mem_firstOccurrenceKeys :
    ∀ (ks : List String) (seen : List String) (k : String),
      k ∈ firstOccurrenceKeys seen ks → k ≠ "" ∧ seen.contains k = false := by
  intro ks
  induction ks with
  | nil => intro seen k h; exact absurd h (by simp [firstOccurrenceKeys])
  | cons k0 rest ih =>
    intro seen k h
    rw [firstOccurrenceKeys] at h
    by_cases hc : k0 = "" ∨ seen.contains k0 = true
    · rw [if_pos hc] at h
      exact ih seen k h
    · rw [if_neg hc] at h
      push_neg at hc
      rcases List.mem_cons.mp h with h1 | h2
      · subst h1
        exact ⟨hc.1, by simpa using hc.2⟩
      · have := ih (seen ++ [k0]) k h2
        refine ⟨this.1, ?_⟩
        have hap := this.2
        rw [Bool.eq_false_iff] at hap ⊢
        intro habs
        apply hap
        rw [List.elem_iff] at habs ⊢
        exact List.mem_append.mpr (Or.inl habs)

theorem nodup_firstOccurrenceKeys :
    ∀ (ks : List String) (seen : List String),
      (firstOccurrenceKeys seen ks).Nodup := by
  intro ks
  induction ks with
  | nil => intro seen; simp [firstOccurrenceKeys]
  | cons k0 rest ih =>
    intro seen
    rw [firstOccurrenceKeys]
    by_cases hc : k0 = "" ∨ seen.contains k0 = true
    · rw [if_pos hc]; exact ih seen
    · rw [if_neg hc]
      refine List.nodup_cons.mpr ⟨?_, ih (seen ++ [k0])⟩
      intro habs
      have := (mem_firstOccurrenceKeys rest (seen ++ [k0]) k0 habs).2
      rw [Bool.eq_false_iff] at this
      apply this
      rw [List.elem_iff]
      exact List.mem_append.mpr (Or.inr (by simp))

theorem firstOccurrenceKeys_append :
    ∀ (ks1 seen ks2 : List String),
      firstOccurrenceKeys seen (ks1 ++ ks2) =
        firstOccurrenceKeys seen ks1 ++
          firstOccurrenceKeys (seen ++ firstOccurrenceKeys seen ks1) ks2 := by
  intro ks1
  induction ks1 with
  | nil => intro seen ks2; simp [firstOccurrenceKeys]
  | cons k0 rest ih =>
    intro seen ks2
    rw [List.cons_append, firstOccurrenceKeys, firstOccurrenceKeys]
    by_cases hc : k0 = "" ∨ seen.contains k0 = true
    · rw [if_pos hc, if_pos hc]
      exact ih seen ks2
    · rw [if_neg hc, if_neg hc]
      rw [ih (seen ++ [k0]) ks2]
      rw [List.cons_append]
      congr 2
      rw [List.append_assoc]
      rfl

theorem mem_pyDictSet (d : List (String × RawRecord)) (k : String)
    (v : RawRecord) (p : String × RawRecord) :
    p ∈ pyDictSet d k v → p ∈ d ∨ p = (k, v) := by
  unfold pyDictSet
  by_cases h : dictHasKey d k
  · rw [if_pos h]
    intro hp
    obtain ⟨q, hq, hpq⟩ := List.mem_map.mp hp
    by_cases hqk : q.1 == k
    · rw [if_pos hqk] at hpq
      exact Or.inr hpq.symm
    · rw [if_neg hqk] at hpq
      exact Or.inl (hpq ▸ hq)
  · rw [if_neg h]
    intro hp
    rcases List.mem_append.mp hp with h1 | h2
    · exact Or.inl h1
    · exact Or.inr (by simpa using h2)

theorem mem_updateLoop (keyFn : RawRecord → String) :
    ∀ (l : List RawRecord) (d : List (String × RawRecord))
      (p : String × RawRecord),
      p ∈ dictUpdateLoop keyFn d l → p ∈ d ∨ p.2 ∈ l := by
  intro l
  induction l with
  | nil => intro d p h; exact Or.inl h
  | cons x xs ih =>
    intro d p h
    rw [dictUpdateLoop] at h
    by_cases hk : keyFn x ≠ ""
    · rw [if_pos (by simpa using hk)] at h
      rcases ih (pyDictSet d (keyFn x) x) p h with h1 | h2
      · rcases mem_pyDictSet d (keyFn x) x p h1 with h3 | h4
        · exact Or.inl h3
        · exact Or.inr (by rw [h4]; exact List.mem_cons_self _ _)
      · exact Or.inr (List.mem_cons_of_mem _ h2)
    · rw [if_neg (by simpa using hk)] at h
      rcases ih d p h with h1 | h2
      · exact Or.inl h1
      · exact Or.inr (List.mem_cons_of_mem _ h2)

theorem mem_insertNewLoop (keyFn : RawRecord → String) :
    ∀ (l : List RawRecord) (d : List (String × RawRecord))
      (p : String × RawRecord),
      p ∈ dictInsertNewLoop keyFn d l → p ∈ d ∨ p.2 ∈ l := by
  intro l
  induction l with
  | nil => intro d p h; exact Or.inl h
  | cons x xs ih =>
    intro d p h
    rw [dictInsertNewLoop] at h
    by_cases hk : keyFn x ≠ "" ∧ ¬ dictHasKey d (keyFn x)
    · rw [if_pos hk] at h
      rcases ih (pyDictSet d (keyFn x) x) p h with h1 | h2
      · rcases mem_pyDictSet d (keyFn x) x p h1 with h3 | h4
        · exact Or.inl h3
        · exact Or.inr (by rw [h4]; exact List.mem_cons_self _ _)
      · exact Or.inr (List.mem_cons_of_mem _ h2)
    · rw [if_neg hk] at h
      rcases ih d p h with h1 | h2
      · exact Or.inl h1
      · exact Or.inr (List.mem_cons_of_mem _ h2)

/-- Every entry of the dict stores a record whose business key is its own
dict key. -/
def dictConsistent (keyFn : RawRecord → String)
    (d : List (String × RawRecord)) : Prop :=
  ∀ p ∈ d, keyFn p.2 = p.1

theorem dictConsistent_pyDictSet (keyFn : RawRecord → String)
    (d : List (String × RawRecord)) (k : String) (v : RawRecord)
    (hd : dictConsistent keyFn d) (hv : keyFn v = k) :
    dictConsistent keyFn (pyDictSet d k v) := by
  intro p hp
  rcases mem_pyDictSet d k v p hp with h1 | h2
  · exact hd p h1
  · rw [h2]; exact hv

theorem dictConsistent_updateLoop (keyFn : RawRecord → String) :
    ∀ (l : List RawRecord) (d : List (String × RawRecord)),
      dictConsistent keyFn d → dictConsistent keyFn (dictUpdateLoop keyFn d l) := by
  intro l
  induction l with
  | nil => intro d hd; exact hd
  | cons x xs ih =>
    intro d hd
    rw [dictUpdateLoop]
    by_cases hk : keyFn x ≠ ""
    · rw [if_pos (by simpa using hk)]
      exact ih _ (dictConsistent_pyDictSet keyFn d (keyFn x) x hd rfl)
    · rw [if_neg (by simpa using hk)]
      exact ih _ hd

theorem dictConsistent_insertNewLoop (keyFn : RawRecord → String) :
    ∀ (l : List RawRecord) (d : List (String × RawRecord)),
      dictConsistent keyFn d →
        dictConsistent keyFn (dictInsertNewLoop keyFn d l) := by
  intro l
  induction l with
  | nil => intro d hd; exact hd
  | cons x xs ih =>
    intro d hd
    rw [dictInsertNewLoop]
    by_cases hk : keyFn x ≠ "" ∧ ¬ dictHasKey d (keyFn x)
    · rw [if_pos hk]
      exact ih _ (dictConsistent_pyDictSet keyFn d (keyFn x) x hd rfl)
    · rw [if_neg hk]
      exact ih _ hd

theorem map_values_keys (keyFn : RawRecord → String) :
    ∀ (d : List (String × RawRecord)), dictConsistent keyFn d →
      (d.map (fun p => p.2)).map keyFn = dictKeys d := by
  intro d
  induction d with
  | nil => intro _; rfl
  | cons p rest ih =>
    intro hd
    rw [List.map_cons, List.map_cons]
    unfold dictKeys
    rw [List.map_cons]
    have h1 : keyFn p.2 = p.1 := hd p (List.mem_cons_self _ _)
    rw [h1]
    have h2 := ih (fun q hq => hd q (List.mem_cons_of_mem _ hq))
    unfold dictKeys at h2
    rw [h2]

theorem dictConsistent_nil (keyFn : RawRecord → String) :
    dictConsistent keyFn [] := by
  intro p hp
  exact absurd hp (by simp)

/-- C10: the deduplicators' outputs have pairwise-distinct business keys,
consist only of input records (unchanged), and list the keys in order of
first occurrence of each non-empty business key across the concatenated
inputs — first-stream records first, then the second stream's new
contributions.  Stated for the daily collector's two-stream
`_merge_and_deduplicate` and for `_deduplicate_by_mgtno` applied to the
concatenated streams. -/
theorem dedup_output_invariants :
    ∀ l1 l2 : List RawRecord,
      (((Daily.merge_and_deduplicate l1 l2).map keyMgmt).Nodup ∧
       (∀ f ∈ Daily.merge_and_deduplicate l1 l2, f ∈ l1 ++ l2) ∧
       (Daily.merge_and_deduplicate l1 l2).map keyMgmt =
         firstOccurrenceKeys [] ((l1 ++ l2).map keyMgmt)) ∧
      (((MedData.deduplicate_by_mgtno (l1 ++ l2)).map keyMgtNo).Nodup ∧
       (∀ r ∈ MedData.deduplicate_by_mgtno (l1 ++ l2), r ∈ l1 ++ l2) ∧
       (MedData.deduplicate_by_mgtno (l1 ++ l2)).map keyMgtNo =
         firstOccurrenceKeys [] ((l1 ++ l2).map keyMgtNo)) := by
  intro l1 l2
  constructor
  · have hcons : dictConsistent keyMgmt
        (dictInsertNewLoop keyMgmt (dictUpdateLoop keyMgmt [] l1) l2) :=
      dictConsistent_insertNewLoop keyMgmt l2 _
        (dictConsistent_updateLoop keyMgmt l1 [] (dictConsistent_nil keyMgmt))
    have hmapkeys : (Daily.merge_and_deduplicate l1 l2).map keyMgmt =
        dictKeys (dictInsertNewLoop keyMgmt (dictUpdateLoop keyMgmt [] l1) l2) := by
      unfold Daily.merge_and_deduplicate
      exact map_values_keys keyMgmt _ hcons
    have hkeys : dictKeys (dictInsertNewLoop keyMgmt (dictUpdateLoop keyMgmt [] l1) l2) =
        firstOccurrenceKeys [] ((l1 ++ l2).map keyMgmt) := by
      rw [dictKeys_insertNewLoop, dictKeys_updateLoop]
      have hnil : dictKeys ([] : List (String × RawRecord)) = [] := rfl
      rw [hnil, List.nil_append, List.map_append, firstOccurrenceKeys_append,
        List.nil_append]
    refine ⟨?_, ?_, ?_⟩
    · rw [hmapkeys, hkeys]
      exact nodup_firstOccurrenceKeys _ []
    · intro f hf
      unfold Daily.merge_and_deduplicate at hf
      obtain ⟨p, hp, hpf⟩ := List.mem_map.mp hf
      rcases mem_insertNewLoop keyMgmt l2 _ p hp with h1 | h2
      · rcases mem_updateLoop keyMgmt l1 [] p h1 with h3 | h4
        · exact absurd h3 (by simp)
        · exact List.mem_append.mpr (Or.inl (hpf ▸ h4))
      · exact List.mem_append.mpr (Or.inr (hpf ▸ h2))
    · rw [hmapkeys, hkeys]
  · have hcons : dictConsistent keyMgtNo (dictInsertNewLoop keyMgtNo [] (l1 ++ l2)) :=
      dictConsistent_insertNewLoop keyMgtNo (l1 ++ l2) [] (dictConsistent_nil keyMgtNo)
    have hmapkeys : (MedData.deduplicate_by_mgtno (l1 ++ l2)).map keyMgtNo =
        dictKeys (dictInsertNewLoop keyMgtNo [] (l1 ++ l2)) := by
      unfold MedData.deduplicate_by_mgtno
      exact map_values_keys keyMgtNo _ hcons
    have hkeys : dictKeys (dictInsertNewLoop keyMgtNo [] (l1 ++ l2)) =
        firstOccurrenceKeys [] ((l1 ++ l2).map keyMgtNo) := by
      rw [dictKeys_insertNewLoop]
      have hnil : dictKeys ([] : List (String × RawRecord)) = [] := rfl
      rw [hnil, List.nil_append]
    refine ⟨?_, ?_, ?_⟩
    · rw [hmapkeys, hkeys]
      exact nodup_firstOccurrenceKeys _ []
    · intro r hr
      unfold MedData.deduplicate_by_mgtno at hr
      obtain ⟨p, hp, hpr⟩ := List.mem_map.mp hr
      rcases mem_insertNewLoop keyMgtNo (l1 ++ l2) [] p hp with h1 | h2
      · exact absurd h1 (by simp)
      · exact hpr ▸ h2
    · rw [hmapkeys, hkeys]

theorem find?_map_set_other (d : List (String × RawRecord)) (k : String)
    (v : RawRecord) (k' : String) (h : k' ≠ k) :
    List.find? (fun p => p.1 == k')
        (d.map (fun p => if p.1 == k then (k, v) else p)) =
      List.find? (fun p => p.1 == k') d := by
  induction d with
  | nil => rfl
  | cons q rest ih =>
    rw [List.map_cons, List.find?_cons, List.find?_cons]
    by_cases hq : q.1 == k
    · rw [if_pos hq]
      have h1 : ((k, v).1 == k') = false := by
        simp only [beq_eq_false_iff_ne, ne_eq]
        intro habs
        exact h habs.symm
      have h2 : (q.1 == k') = false := by
        simp only [beq_eq_false_iff_ne, ne_eq]
        intro habs
        rw [habs] at hq
        exact h (beq_iff_eq.mp hq)
      rw [h1, h2]
      exact ih
    · rw [if_neg hq]
      by_cases hq' : q.1 == k'
      · rw [hq']
      · rw [Bool.eq_false_iff.mpr hq']
        exact ih

theorem find?_map_set_self (d : List (String × RawRecord)) (k : String)
    (v : RawRecord) (h : dictHasKey d k = true) :
    List.find? (fun p => p.1 == k)
        (d.map (fun p => if p.1 == k then (k, v) else p)) = some (k, v) := by
  induction d with
  | nil => exact absurd h (by simp [dictHasKey])
  | cons q rest ih =>
    rw [List.map_cons, List.find?_cons]
    by_cases hq : q.1 == k
    · rw [if_pos hq]
      have : ((k, v).1 == k) = true := by simp
      rw [this]
    · rw [if_neg hq, Bool.eq_false_iff.mpr hq]
      apply ih
      unfold dictHasKey at h ⊢
      rw [List.any_cons] at h
      rcases Bool.or_eq_true_iff.mp h with h1 | h2
      · exact absurd h1 hq
      · exact h2

theorem dictFind_nil (k : String) : dictFind [] k = none := rfl

theorem dictFind_append_single (d : List (String × RawRecord)) (k : String)
    (v : RawRecord) (k' : String) :
    dictFind (d ++ [(k, v)]) k' =
      optOr (dictFind d k') (if k == k' then some v else none) := by
  induction d with
  | nil =>
    rw [List.nil_append, dictFind_nil, optOr_none_left]
    unfold dictFind
    rw [List.find?_cons]
    by_cases h : (k, v).1 == k'
    · rw [h, if_pos rfl]
    · rw [Bool.eq_false_iff.mpr h, if_neg (by simp)]
      rfl
  | cons q rest ih =>
    rw [List.cons_append]
    unfold dictFind
    rw [List.find?_cons, List.find?_cons]
    by_cases hq : q.1 == k'
    · rw [hq]
      rfl
    · rw [Bool.eq_false_iff.mpr hq]
      exact ih

theorem dictFind_pyDictSet (d : List (String × RawRecord)) (k : String)
    (v : RawRecord) (k' : String) :
    dictFind (pyDictSet d k v) k' = if k' = k then some v else dictFind d k' := by
  unfold pyDictSet
  by_cases h : dictHasKey d k
  · rw [if_pos h]
    by_cases hk : k' = k
    · subst hk
      unfold dictFind
      rw [find?_map_set_self d k' v h, if_pos rfl]
    · unfold dictFind
      rw [find?_map_set_other d k v k' hk, if_neg hk]
  · rw [if_neg h, dictFind_append_single]
    by_cases hk : k' = k
    · subst hk
      rw [if_pos rfl]
      have hnone : dictFind d k' = none := by
        rcases hf : dictFind d k' with _ | p
        · rfl
        · exfalso
          apply h
          unfold dictFind at hf
          rcases hfind : List.find? (fun p => p.1 == k') d with _ | q
          · rw [hfind] at hf
            exact absurd hf (by simp)
          · have := List.find?_isSome.mp (by rw [hfind]; rfl)
            obtain ⟨x, hx, hpx⟩ := this
            unfold dictHasKey
            rw [List.any_eq_true]
            exact ⟨x, hx, hpx⟩
      rw [hnone, optOr_none_left, if_pos (beq_iff_eq.mpr rfl)]
    · rw [if_neg hk,
        if_neg (fun habs => hk (beq_iff_eq.mp habs).symm), optOr_none_right]

theorem getLast?_cons_optOr {α : Type} (x : α) (xs : List α) :
    (x :: xs).getLast? = optOr xs.getLast? (some x) := by
  cases xs with
  | nil => rfl
  | cons y ys =>
    rw [List.getLast?_cons_cons]
    have hs : (y :: ys).getLast?.isSome = true :=
      List.getLast?_isSome.mpr (by simp)
    rcases hz : (y :: ys).getLast? with _ | z
    · rw [hz] at hs
      exact absurd hs (by simp)
    · rfl

theorem lastWithKey_cons (keyFn : RawRecord → String) (f : RawRecord)
    (l : List RawRecord) (k : String) :
    lastWithKey keyFn (f :: l) k =
      if keyFn f == k then optOr (lastWithKey keyFn l k) (some f)
      else lastWithKey keyFn l k := by
  unfold lastWithKey
  rw [List.filter_cons]
  by_cases h : keyFn f == k
  · rw [if_pos h, if_pos h]
    exact getLast?_cons_optOr f _
  · rw [if_neg h, if_neg h]

theorem firstWithKey_cons (keyFn : RawRecord → String) (f : RawRecord)
    (l : List RawRecord) (k : String) :
    firstWithKey keyFn (f :: l) k =
      if keyFn f == k then some f else firstWithKey keyFn l k := by
  unfold firstWithKey
  rw [List.filter_cons]
  by_cases h : keyFn f == k
  · rw [if_pos h, if_pos h]
    rfl
  · rw [if_neg h, if_neg h]

theorem dictFind_isSome_of_hasKey (d : List (String × RawRecord)) (k : String)
    (h : dictHasKey d k = true) : ∃ v, dictFind d k = some v := by
  unfold dictHasKey at h
  have := List.find?_isSome.mpr (List.any_eq_true.mp h)
  rcases hf : List.find? (fun p => p.1 == k) d with _ | p
  · rw [hf] at this
    exact absurd this (by simp)
  · exact ⟨p.2, by unfold dictFind; rw [hf]⟩

theorem dictFind_none_of_not_hasKey (d : List (String × RawRecord)) (k : String)
    (h : dictHasKey d k = false) : dictFind d k = none := by
  rcases hf : List.find? (fun p => p.1 == k) d with _ | p
  · unfold dictFind
    rw [hf]
  · have := List.find?_isSome.mp (by rw [hf]; rfl)
    obtain ⟨x, hx, hpx⟩ := this
    have : dictHasKey d k = true := by
      unfold dictHasKey
      exact List.any_eq_true.mpr ⟨x, hx, hpx⟩
    rw [this] at h
    exact absurd h (by simp)

theorem dictFind_updateLoop (keyFn : RawRecord → String) (k : String)
    (hk : k ≠ "") :
    ∀ (l : List RawRecord) (d : List (String × RawRecord)),
      dictFind (dictUpdateLoop keyFn d l) k =
        optOr (lastWithKey keyFn l k) (dictFind d k) := by
  intro l
  induction l with
  | nil =>
    intro d
    rw [dictUpdateLoop]
    unfold lastWithKey
    rw [List.filter_nil]
    rfl
  | cons x xs ih =>
    intro d
    rw [dictUpdateLoop, lastWithKey_cons]
    by_cases hkx : keyFn x = ""
    · have hne : (keyFn x == k) = false :=
        beq_eq_false_iff_ne.mpr (fun habs => hk (habs ▸ hkx.symm).symm)
      rw [if_neg (by simpa using hkx), hne, if_neg (by simp), ih d]
    · rw [if_pos (by simpa using hkx), ih (pyDictSet d (keyFn x) x),
        dictFind_pyDictSet]
      by_cases hkk : k = keyFn x
      · rw [if_pos hkk, if_pos (beq_iff_eq.mpr hkk.symm), optOr_assoc, optOr_some_left]
      · rw [if_neg hkk,
          if_neg (by
            intro habs
            exact hkk (beq_iff_eq.mp habs).symm)]

theorem dictFind_insertNewLoop (keyFn : RawRecord → String) (k : String)
    (hk : k ≠ "") :
    ∀ (l : List RawRecord) (d : List (String × RawRecord)),
      dictFind (dictInsertNewLoop keyFn d l) k =
        optOr (dictFind d k) (firstWithKey keyFn l k) := by
  intro l
  induction l with
  | nil =>
    intro d
    rw [dictInsertNewLoop]
    unfold firstWithKey
    rw [List.filter_nil]
    exact (optOr_none_right _).symm
  | cons x xs ih =>
    intro d
    rw [dictInsertNewLoop, firstWithKey_cons]
    by_cases hcond : keyFn x ≠ "" ∧ ¬ dictHasKey d (keyFn x)
    · rw [if_pos hcond, ih (pyDictSet d (keyFn x) x)]
      by_cases hkk : k = keyFn x
      · subst hkk
        rw [dictFind_pyDictSet, if_pos rfl,
          dictFind_none_of_not_hasKey d (keyFn x) (by
            rcases hb : dictHasKey d (keyFn x) with _ | _
            · rfl
            · exact absurd hb hcond.2),
          optOr_none_left, optOr_some_left, if_pos (beq_iff_eq.mpr rfl)]
      · rw [dictFind_pyDictSet, if_neg hkk,
          if_neg (fun habs => hkk (beq_iff_eq.mp habs).symm)]
    · rw [if_neg hcond, ih d]
      by_cases hkk : (keyFn x == k) = true
      · rw [if_pos hkk]
        rcases Decidable.not_and_iff_or_not.mp hcond with h1 | h2
        · have h1' : keyFn x = "" := by
            by_cases hx : keyFn x = ""
            · exact hx
            · exact absurd hx h1
          exact absurd ((beq_iff_eq.mp hkk).symm.trans h1') hk
        · have hhas : dictHasKey d (keyFn x) = true := Decidable.not_not.mp h2
          obtain ⟨v, hv⟩ := dictFind_isSome_of_hasKey d (keyFn x) hhas
          rw [beq_iff_eq.mp hkk] at hv
          rw [hv, optOr_some_left, optOr_some_left]
      · rw [if_neg (by simpa using hkk)]

theorem find?_values_eq_dictFind (keyFn : RawRecord → String) (k : String) :
    ∀ (d : List (String × RawRecord)), dictConsistent keyFn d →
      (d.map (fun p => p.2)).find? (fun f => keyFn f == k) = dictFind d k := by
  intro d
  induction d with
  | nil => intro _; rfl
  | cons p rest ih =>
    intro hd
    rw [List.map_cons, List.find?_cons]
    have hp : keyFn p.2 = p.1 := hd p (List.mem_cons_self _ _)
    unfold dictFind
    rw [List.find?_cons, hp]
    by_cases h : p.1 == k
    · rw [h]
    · rw [Bool.eq_false_iff.mpr h]
      have := ih (fun q hq => hd q (List.mem_cons_of_mem _ hq))
      unfold dictFind at this
      exact this

theorem find?_eq_firstWithKey (keyFn : RawRecord → String) (k : String) :
    ∀ (l : List RawRecord),
      l.find? (fun r => keyFn r == k) = firstWithKey keyFn l k := by
  intro l
  induction l with
  | nil => rfl
  | cons r rest ih =>
    rw [firstWithKey_cons]
    by_cases h : (keyFn r == k) = true
    · rw [@List.find?_cons_of_pos _ (fun r => keyFn r == k) r rest h, if_pos h]
    · rw [@List.find?_cons_of_neg _ (fun r => keyFn r == k) r rest h, if_neg h]
      exact ih

theorem remove_duplicates_go_find (k : String) (hk : k ≠ "") :
    ∀ (l : List RawRecord) (seen : List String),
      (ApiData.remove_duplicates_go seen l).find? (fun r => keyMgtNo r == k) =
        if seen.contains k then none else firstWithKey keyMgtNo l k := by
  intro l
  induction l with
  | nil =>
    intro seen
    rw [ApiData.remove_duplicates_go]
    unfold firstWithKey
    rw [List.filter_nil]
    by_cases h : seen.contains k
    · rw [if_pos h]
      rfl
    · rw [if_neg h]
      rfl
  | cons item rest ih =>
    intro seen
    rw [ApiData.remove_duplicates_go]
    have hmg : pyGet item "mgtNo" = keyMgtNo item := rfl
    rw [firstWithKey_cons]
    by_cases hcond : pyGet item "mgtNo" ≠ "" ∧
        ¬ (seen.contains (pyGet item "mgtNo")) = true
    · rw [if_pos hcond]
      by_cases hkk : (keyMgtNo item == k) = true
      · rw [@List.find?_cons_of_pos _ (fun r => keyMgtNo r == k) item _ hkk]
        by_cases hs : seen.contains k
        · rw [hmg, beq_iff_eq.mp hkk] at hcond
          exact absurd hs hcond.2
        · rw [if_neg hs, if_pos hkk]
      · rw [@List.find?_cons_of_neg _ (fun r => keyMgtNo r == k) item _ hkk,
          ih ((pyGet item "mgtNo") :: seen)]
        have hck : (k == pyGet item "mgtNo") = false := by
          refine beq_eq_false_iff_ne.mpr ?_
          intro habs
          rw [hmg] at habs
          exact hkk (beq_iff_eq.mpr habs.symm)
        rw [List.contains_cons, hck, Bool.false_or]
        by_cases hs : seen.contains k
        · rw [if_pos hs, if_pos hs]
        · rw [if_neg hs, if_neg hs, if_neg hkk]
    · rw [if_neg hcond, ih seen]
      by_cases hs : seen.contains k
      · rw [if_pos hs, if_pos hs]
      · rw [if_neg hs, if_neg hs]
        by_cases hkk : (keyMgtNo item == k) = true
        · rcases Decidable.not_and_iff_or_not.mp hcond with h1 | h2
          · have h1' : pyGet item "mgtNo" = "" := Decidable.not_not.mp h1
            rw [hmg] at h1'
            exact absurd ((beq_iff_eq.mp hkk).symm.trans h1') hk
          · have h2' : seen.contains (pyGet item "mgtNo") = true :=
              Decidable.not_not.mp h2
            rw [hmg, beq_iff_eq.mp hkk] at h2'
            rw [h2'] at hs
            exact absurd rfl hs
        · rw [if_neg hkk]

/-- Refutes C2 as stated: within the first stream the merge is not
first-writer-wins — `all_facilities[mgt_no] = facility` overwrites
unconditionally, so of two stream-A records sharing key `"1"` the later
one (`name "Z"`) survives, not the earlier (`name "X"`). -/
theorem merge_first_stream_overwrites_counterexample :
    Daily.merge_and_deduplicate
        [[("관리번호", "1"), ("사업장명", "X")], [("관리번호", "1"), ("사업장명", "Z")]]
        [] =
      [[("관리번호", "1"), ("사업장명", "Z")]] := by
  decide

/-- C2 amended: records with an empty business key are skipped entirely,
and the surviving record for key `k` is the LAST record of the first
stream with key `k` when one exists, otherwise the FIRST record of the
second stream with key `k` — i.e. the merge is first-writer-wins across
streams and within the second stream, but last-writer-wins among
duplicates inside the first stream.  The single-stream deduplicator
`_remove_duplicates` is first-writer-wins throughout, so the spec's A/B
example still yields name `"X"`. -/
theorem merge_dedup_value_characterization :
    (∀ (l1 l2 : List RawRecord) (k : String), k ≠ "" →
      (Daily.merge_and_deduplicate l1 l2).find? (fun f => keyMgmt f == k) =
        optOr (lastWithKey keyMgmt l1 k) (firstWithKey keyMgmt l2 k)) ∧
    (∀ (l1 l2 : List RawRecord) (f : RawRecord),
      f ∈ Daily.merge_and_deduplicate l1 l2 → keyMgmt f ≠ "") ∧
    (∀ (l : List RawRecord) (k : String), k ≠ "" →
      (ApiData.remove_duplicates l).find? (fun r => keyMgtNo r == k) =
        firstWithKey keyMgtNo l k) := by
  refine ⟨?_, ?_, ?_⟩
  · intro l1 l2 k hk
    have hcons : dictConsistent keyMgmt
        (dictInsertNewLoop keyMgmt (dictUpdateLoop keyMgmt [] l1) l2) :=
      dictConsistent_insertNewLoop keyMgmt l2 _
        (dictConsistent_updateLoop keyMgmt l1 [] (dictConsistent_nil keyMgmt))
    unfold Daily.merge_and_deduplicate
    rw [find?_values_eq_dictFind keyMgmt k _ hcons,
      dictFind_insertNewLoop keyMgmt k hk l2 _,
      dictFind_updateLoop keyMgmt k hk l1 [], dictFind_nil, optOr_none_right]
  · intro l1 l2 f hf
    have hcons : dictConsistent keyMgmt
        (dictInsertNewLoop keyMgmt (dictUpdateLoop keyMgmt [] l1) l2) :=
      dictConsistent_insertNewLoop keyMgmt l2 _
        (dictConsistent_updateLoop keyMgmt l1 [] (dictConsistent_nil keyMgmt))
    have hmem : keyMgmt f ∈ (Daily.merge_and_deduplicate l1 l2).map keyMgmt :=
      List.mem_map_of_mem keyMgmt hf
    unfold Daily.merge_and_deduplicate at hmem
    rw [map_values_keys keyMgmt _ hcons, dictKeys_insertNewLoop,
      dictKeys_updateLoop] at hmem
    have hnil : dictKeys ([] : List (String × RawRecord)) = [] := rfl
    rw [hnil, List.nil_append] at hmem
    rcases List.mem_append.mp hmem with h1 | h2
    · exact (mem_firstOccurrenceKeys _ _ _ h1).1
    · exact (mem_firstOccurrenceKeys _ _ _ h2).1
  · intro l k hk
    unfold ApiData.remove_duplicates
    rw [remove_duplicates_go_find k hk l []]
    rfl

/-- Witness for C2 (amended) at the spec's A/B example: merging stream
A = `[{key "1", name "X"}]` before stream B = `[{key "1", name "Y"}]`
leaves the record with name `"X"` under key `"1"`. -/
theorem merge_dedup_value_characterization_witness :
    ("1" : String) ≠ "" ∧
    (Daily.merge_and_deduplicate [[("관리번호", "1"), ("사업장명", "X")]]
        [[("관리번호", "1"), ("사업장명", "Y")]]).find?
        (fun f => keyMgmt f == "1") =
      some [("관리번호", "1"), ("사업장명", "X")] := by
  refine ⟨by decide, ?_⟩
  have h := merge_dedup_value_characterization.1
    [[("관리번호", "1"), ("사업장명", "X")]]
    [[("관리번호", "1"), ("사업장명", "Y")]] "1" (by decide)
  rw [h]
  decide

theorem daily_fetch_count_le (server : Nat → Option (List RawRecord))
    (ft : String) :
    ∀ (n page : Nat), page ≤ 10 → 10 - page ≤ n →
      (Daily.fetch_by_date_params server ft page).2 ≤ 11 - page := by
  intro n
  induction n with
  | zero =>
    intro page h10 hn
    have hp : page = 10 := by omega
    subst hp
    rw [Daily.fetch_by_date_params]
    rcases hs : server 10 with _ | rows
    · show (1 : Nat) ≤ 11 - 10
      omega
    · by_cases he : rows.isEmpty
      · simp [he]
      · simp only [Bool.not_eq_true] at he
        simp only [he, Bool.false_eq_true, if_false]
        by_cases hl : rows.length < 1000
        · simp [hl]
        · simp [hl]
  | succ n ih =>
    intro page h10 hn
    rw [Daily.fetch_by_date_params]
    rcases hs : server page with _ | rows
    · show 1 ≤ 11 - page
      omega
    · by_cases he : rows.isEmpty
      · simp only [he, if_true]
        show 1 ≤ 11 - page
        omega
      · simp only [Bool.not_eq_true] at he
        simp only [he, Bool.false_eq_true, if_false]
        by_cases hl : rows.length < 1000
        · simp only [hl, if_true]
          show 1 ≤ 11 - page
          omega
        · simp only [hl, if_false]
          by_cases hp1 : page + 1 > 10
          · rw [dif_pos hp1]
            show 1 ≤ 11 - page
            omega
          · rw [dif_neg hp1]
            have hrec := ih (page + 1) (by omega) (by omega)
            show (Daily.fetch_by_date_params server ft (page + 1)).2 + 1 ≤ 11 - page
            omega

theorem med_fetch_full_pages_none :
    ∀ (fuel page : Nat),
      MedData.fetch_data_fuel (alwaysFullServer 100) 100 fuel page = none := by
  intro fuel
  induction fuel with
  | zero => intro page; rfl
  | succ n ih =>
    intro page
    rw [MedData.fetch_data_fuel]
    show (if (List.replicate 100 [("mgtNo", "1"), ("apvPermYmd", "20250617")]).isEmpty = true
        then some []
        else if (List.replicate 100 [("mgtNo", "1"), ("apvPermYmd", "20250617")]).length < 100
        then some (List.replicate 100 [("mgtNo", "1"), ("apvPermYmd", "20250617")])
        else (MedData.fetch_data_fuel (alwaysFullServer 100) 100 n (page + 1)).map
          (fun rest => List.replicate 100 [("mgtNo", "1"), ("apvPermYmd", "20250617")] ++ rest)) = none
    rw [if_neg (by simp [List.isEmpty_iff]), if_neg (by simp), ih (page + 1)]
    rfl

theorem simple_fetch_full_pages_none :
    ∀ (fuel page : Nat),
      SimpleFetch.fetch_data_bgn_end_fuel (alwaysFullXmlServer 500) fuel page = none := by
  intro fuel
  induction fuel with
  | zero => intro page; rfl
  | succ n ih =>
    intro page
    rw [SimpleFetch.fetch_data_bgn_end_fuel]
    show (if (List.replicate 500 [("mgtNo", some "1")]).isEmpty = true
        then some []
        else if (List.replicate 500 [("mgtNo", some "1")]).length < 500
        then some (List.replicate 500 [("mgtNo", some "1")])
        else (SimpleFetch.fetch_data_bgn_end_fuel (alwaysFullXmlServer 500) n (page + 1)).map
          (fun rest => List.replicate 500 [("mgtNo", some "1")] ++ rest)) = none
    rw [if_neg (by simp [List.isEmpty_iff]), if_neg (by simp), ih (page + 1)]
    rfl

/-- Refutes C3 as stated: against an upstream that forever returns full
pages, `MedicalDataAPI._fetch_data` and `fetch_data_bgn_end` hit no
termination condition within 50 pages — far beyond every page cap
configured anywhere in the repository (10 and 20) — because their
`while True:` loops check only (a) zero records and (b) a short page and
enforce no maximum page count at all. -/
theorem unbounded_pagination_counterexample :
    MedData.fetch_data_fuel (alwaysFullServer 100) 100 50 1 = none ∧
    SimpleFetch.fetch_data_bgn_end_fuel (alwaysFullXmlServer 500) 50 1 = none := by
  exact ⟨by decide, by decide⟩

/-- C3 amended: the daily collector's `_fetch_by_date_params` checks, in
order, zero records, a short page, and the `page_index > 10` cap, so it
performs at most 10 requests against any upstream whatsoever; but the
`MedicalData._fetch_data` and `simple_fetch.fetch_data_bgn_end` loops have
no maximum-page safety bound — against an upstream that forever returns
full pages they never terminate (no fuel suffices). -/
theorem paginated_fetch_bound_amended :
    (∀ (server : Nat → Option (List RawRecord)) (ft : String),
      (Daily.fetch_by_date_params server ft 1).2 ≤ 10) ∧
    (∀ fuel : Nat,
      MedData.fetch_data_fuel (alwaysFullServer 100) 100 fuel 1 = none) ∧
    (∀ fuel : Nat,
      SimpleFetch.fetch_data_bgn_end_fuel (alwaysFullXmlServer 500) fuel 1 = none) := by
  refine ⟨?_, ?_, ?_⟩
  · intro server ft
    have h := daily_fetch_count_le server ft 9 1 (by omega) (by omega)
    omega
  · intro fuel
    exact med_fetch_full_pages_none fuel 1
  · intro fuel
    exact simple_fetch_full_pages_none fuel 1

/-- Refutes C6 as stated: for the primary window (day 0, day 5), the
comprehensive fetcher's third window is `(7, 14)` — it begins 7 days after
START (not the day after `end`) and spans 8 days — whereas the 7 days
immediately after `end` would be `(6, 12)`. -/
theorem range_expander_following_window_counterexample :
    Integrated.last_mod_date_ranges 0 5 = [(0, 5), (-7, -1), (7, 14)] ∧
    ((7 : Int), (14 : Int)) ≠ ((5 : Int) + 1, (5 : Int) + 7) := by
  exact ⟨rfl, by decide⟩

/-- C6 amended: the expander always produces exactly three windows, in
order: the primary window; a preceding window spanning exactly the 7 days
immediately before `start` (it ends the day before `start`); and a
following window computed from START, running from `start + 7` to
`start + 14` and spanning 8 days — not the 7 days immediately after `end`.
The `simple_fetch` variant, by contrast, does place its third window at
`end + 1 .. end + 7` (by numeric string arithmetic), as its hardcoded
dates show. -/
theorem range_expander_windows_amended :
    (∀ s e : Int,
      Integrated.last_mod_date_ranges s e =
        [(s, e), (s - 7, s - 1), (s + 7, s + 14)] ∧
      (s - 1) - (s - 7) + 1 = 7 ∧ (s - 1) + 1 = s ∧
      (s + 14) - (s + 7) + 1 = 8) ∧
    SimpleFetch.fetch_data_last_mod_windows "20250608" "20250613" =
      [("20250608", "20250613"), ("20250601", "20250607"),
       ("20250614", "20250620")] := by
  refine ⟨?_, by decide⟩
  intro s e
  refine ⟨rfl, by ring_nf, by ring_nf, by ring_nf⟩

/-- Refutes C7 as stated: feeding an already-normalized record sequence
back into `_extract_rows_from_response` as a top-level (direct-list)
envelope yields the EMPTY sequence, not the sequence itself — the
normalizer has no branch for a bare top-level list, and on a list the
Python `in` checks test element membership, which fails for dict
elements. -/
theorem normalizer_direct_list_counterexample :
    Daily.extract_rows_from_response
        (JValue.list [JValue.obj [("mgtNo", JValue.str "1")]]) = [] ∧
    [JValue.obj [("mgtNo", JValue.str "1")]].length = 1 := by
  exact ⟨rfl, rfl⟩

/-- C7 amended: re-normalizing an already-normalized sequence of records
presented as a bare top-level list yields the empty sequence (the
direct-list shape is not among the attempted envelopes); the no-op
round-trip instead holds for the wrapped `result.body` list envelope,
which returns the sequence unchanged. -/
theorem normalizer_idempotence_amended :
    ∀ rs : List JValue, (∀ r ∈ rs, jIsObj r = true) →
      Daily.extract_rows_from_response (JValue.list rs) = [] ∧
      Daily.extract_rows_from_response
        (JValue.obj [("result", JValue.obj [("body", JValue.list rs)])]) = rs := by
  intro rs hobj
  constructor
  · have hc : ∀ key : String, jContains (JValue.list rs) key = false := by
      intro key
      unfold jContains
      rw [List.any_eq_false]
      intro r hr
      have := hobj r hr
      cases r with
      | str t => exact absurd this (by simp [jIsObj])
      | obj kvs => simp
      | list xs => simp
    unfold Daily.extract_rows_from_response
    rw [hc "result", hc "body", hc "row"]
    simp
  · rfl

/-- Witness for C7 (amended) at a concrete one-record sequence. -/
theorem normalizer_idempotence_amended_witness :
    (∀ r ∈ [JValue.obj [("bplcNm", JValue.str "A의원")]], jIsObj r = true) ∧
    Daily.extract_rows_from_response
        (JValue.list [JValue.obj [("bplcNm", JValue.str "A의원")]]) = [] ∧
    Daily.extract_rows_from_response
        (JValue.obj [("result", JValue.obj
          [("body", JValue.list [JValue.obj [("bplcNm", JValue.str "A의원")]])])]) =
      [JValue.obj [("bplcNm", JValue.str "A의원")]] := by
  have h := normalizer_idempotence_amended
    [JValue.obj [("bplcNm", JValue.str "A의원")]]
    (by intro r hr; rcases List.mem_singleton.mp hr with rfl; rfl)
  exact ⟨by intro r hr; rcases List.mem_singleton.mp hr with rfl; rfl, h.1, h.2⟩

/-- C8: whenever the business type exactly matches an entry of the fixed
`FIXED_MEDICAL_SUBJECTS` override table, the classifier returns the mapped
subject immediately — including the explicit empty subject for pharmacies
— regardless of the business name and of any keywords it contains. -/
theorem classifier_override_precedence (business_name : Option String)
    (business_type : String) (subject : String)
    (h : Integrated.fixedSubject business_type = some subject) :
    Integrated.extract_medical_subjects business_name (some business_type) =
      subject := by
  unfold Integrated.extract_medical_subjects
  rw [Option.some_bind, h]

/-- Witness for C8: a herbal-medicine clinic (`"한의원"`) whose name
contains the dermatology keyword `"피부과"` still classifies as
`"한의학"`, and a pharmacy (`"약국"`) whose name contains `"내과"` still
gets the empty subject. -/
theorem classifier_override_precedence_witness :
    Integrated.fixedSubject "한의원" = some "한의학" ∧
    Integrated.extract_medical_subjects (some "강남피부과한의원") (some "한의원") =
      "한의학" ∧
    Integrated.fixedSubject "약국" = some "" ∧
    Integrated.extract_medical_subjects (some "우리내과약국") (some "약국") = "" ∧
    pyInStr "피부과" "강남피부과한의원" = true ∧
    pyInStr "내과" "우리내과약국" = true := by
  refine ⟨by decide, ?_, by decide, ?_, by decide, by decide⟩
  · exact classifier_override_precedence (some "강남피부과한의원") "한의원" "한의학"
      (by decide)
  · exact classifier_override_precedence (some "우리내과약국") "약국" "" (by decide)

/-- C9: the daily collector's record extraction yields no facility record
(an `Option`-`none` result, the row silently dropped) whenever the
business key `mgtNo` or the raw permit date `apvPermYmd` is absent or
empty — so such rows are discarded at conversion time, before the merge
and the date filter ever see them. -/
theorem extract_facility_requires_key_and_date (row : RawRecord)
    (facility_type : String)
    (h : pyGet row "mgtNo" = "" ∨ pyGet row "apvPermYmd" = "") :
    Daily.extract_facility_info row facility_type = none := by
  unfold Daily.extract_facility_info
  rw [if_pos h]

/-- Witness for C9: a row with a business key but no permit date, and a
row with a permit date but no business key, are both dropped. -/
theorem extract_facility_requires_key_and_date_witness :
    (pyGet [("mgtNo", "1"), ("bplcNm", "A의원")] "apvPermYmd" = "") ∧
    Daily.extract_facility_info [("mgtNo", "1"), ("bplcNm", "A의원")] "의원" = none ∧
    (pyGet [("apvPermYmd", "20250617")] "mgtNo" = "") ∧
    Daily.extract_facility_info [("apvPermYmd", "20250617")] "의원" = none := by
  refine ⟨by decide, ?_, by decide, ?_⟩
  · exact extract_facility_requires_key_and_date _ "의원" (Or.inr (by decide))
  · exact extract_facility_requires_key_and_date _ "의원" (Or.inl (by decide))
